import Mathlib

/-
Verification development for the repository change-notification engine of
src/src/git/models/repository.ts: the path classifier, the debounced and
coalescing change-event machinery with its suspend and resume gate, the
filesystem-change accumulator, the delegated mutating operations with their
error handling, and the reentrancy gate.

Paths and URIs are modelled as lists of characters (the `path` and `fsPath`
of a vscode Uri). The repository state machine models the private mutable
fields of the `Repository` class; external collaborators (the
`excludeIgnoredUris` filter, the git command executor, the host command
bridge) are parameters.
-/

namespace Repo

abbrev Uri := List Char

-- Path suffix constants checked by onRepositoryChanged, in source order.
def dotGitConfig : Uri := ".git/config".toList
def dotGitIndexFile : Uri := ".git/index".toList
def dotGitHEADFile : Uri := ".git/HEAD".toList
def dotGitOrigHEADFile : Uri := ".git/ORIG_HEAD".toList
def dotGitRefsStash : Uri := ".git/refs/stash".toList
def gitignoreSuffix : Uri := "/.gitignore".toList

-- Literal alternatives of refsRegex = /\.git\/refs\/(heads|remotes|tags)/.
def refsHeadsPat : Uri := ".git/refs/heads".toList
def refsRemotesPat : Uri := ".git/refs/remotes".toList
def refsTagsPat : Uri := ".git/refs/tags".toList

-- ignoreGitRegex = /\.git(?:\/|\\|$)/ : ".git" followed by a slash, a
-- backslash, or the end of the string.
def gitBoundary : Uri → Bool
  | [] => true
  | '/' :: _ => true
  | '\\' :: _ => true
  | _ => false

def dotGitAt : Uri → Bool
  | '.' :: 'g' :: 'i' :: 't' :: rest => gitBoundary rest
  | _ => false

def ignoreGitTest : Uri → Bool
  | [] => false
  | c :: rest => dotGitAt (c :: rest) || ignoreGitTest rest

inductive RefsKind
  | heads
  | remotes
  | tags
deriving DecidableEq

-- Leftmost match of refsRegex: the first position at which the literal
-- ".git/refs/" is followed by one of the three alternatives (the three
-- alternatives are mutually exclusive at a fixed position).
def refsFirstMatch : Uri → Option RefsKind
  | [] => none
  | c :: rest =>
    if refsHeadsPat.isPrefixOf (c :: rest) then some RefsKind.heads
    else if refsRemotesPat.isPrefixOf (c :: rest) then some RefsKind.remotes
    else if refsTagsPat.isPrefixOf (c :: rest) then some RefsKind.tags
    else refsFirstMatch rest

-- enum RepositoryChange
inductive RepositoryChange
  | Config
  | Closed
  | Starred
  | Heads
  | Index
  | Ignores
  | Remotes
  | Stash
  | Tags
  | Unknown
deriving DecidableEq

-- RepositoryChangeEvent: the originating-repository field is dropped (the
-- model tracks a single repository).
structure RepositoryChangeEvent where
  changes : List RepositoryChange
deriving DecidableEq

structure RepositoryFileSystemChangeEvent where
  uris : List Uri
deriving DecidableEq

/-- The dispatch of onRepositoryChanged: which categories are fired and
which caches are reset for a given watched path (none models a null Uri).
The branches mirror the source conditionals in order; `resetBranch` models
the assignment of undefined to the `_branch` cache and `resetRemotes`
models the call to `resetRemotesCache()`. -/
structure Classification where
  changes : List RepositoryChange
  resetBranch : Bool
  resetRemotes : Bool
deriving DecidableEq

def classifyPath : Option Uri → Classification
  | none => ⟨[RepositoryChange.Unknown], false, false⟩
  | some p =>
    if dotGitConfig.isSuffixOf p then
      ⟨[RepositoryChange.Config, RepositoryChange.Remotes], true, true⟩
    else if dotGitIndexFile.isSuffixOf p then
      ⟨[RepositoryChange.Index], false, false⟩
    else if dotGitHEADFile.isSuffixOf p || dotGitOrigHEADFile.isSuffixOf p then
      ⟨[RepositoryChange.Heads], true, false⟩
    else if dotGitRefsStash.isSuffixOf p then
      ⟨[RepositoryChange.Stash], false, false⟩
    else if gitignoreSuffix.isSuffixOf p then
      ⟨[RepositoryChange.Ignores], false, false⟩
    else
      match refsFirstMatch p with
      | some RefsKind.heads => ⟨[RepositoryChange.Heads], true, false⟩
      | some RefsKind.remotes => ⟨[RepositoryChange.Remotes], true, true⟩
      | some RefsKind.tags => ⟨[RepositoryChange.Tags], false, false⟩
      | none => ⟨[RepositoryChange.Unknown], false, false⟩

-- Debounce windows: fireChange uses 250, fireFileSystemChange uses 2500.
def REPO_DEBOUNCE : Nat := 250
def FS_DEBOUNCE : Nat := 2500

/-- State of one Repository instance: its private mutable fields, the
spec-modelled debounce timers, and the history of events delivered to
subscribers of the two emitters. The caches are modelled as booleans
(whether the cached value is present). Timers are modelled from the spec:
the debounce utility is not under src/; per the spec it is a classic
trailing-edge debounce in which each call resets the timer to the full
window, and the wrapped core function runs when the timer expires. -/
structure RepoState where
  suspended : Bool
  branchCached : Bool
  remotesCached : Bool
  lastFetchedCached : Bool
  fireChangeDebouncedCreated : Bool
  fireFsDebouncedCreated : Bool
  pendingRepoChange : Option RepositoryChangeEvent
  pendingFileSystemChange : Option RepositoryFileSystemChangeEvent
  repoTimer : Option Nat
  fsTimer : Option Nat
  publishedRepo : List RepositoryChangeEvent
  publishedFs : List RepositoryFileSystemChangeEvent
  anyRepoCalls : List RepositoryChangeEvent
deriving DecidableEq

attribute [ext] RepoState

def initialState (suspended : Bool) : RepoState :=
  { suspended := suspended
    branchCached := false
    remotesCached := false
    lastFetchedCached := false
    fireChangeDebouncedCreated := false
    fireFsDebouncedCreated := false
    pendingRepoChange := none
    pendingFileSystemChange := none
    repoTimer := none
    fsTimer := none
    publishedRepo := []
    publishedFs := []
    anyRepoCalls := [] }

def pendingChangesOf (s : RepoState) : List RepositoryChange :=
  match s.pendingRepoChange with
  | some e => e.changes
  | none => []

def pendingUrisOf (s : RepoState) : List Uri :=
  match s.pendingFileSystemChange with
  | some e => e.uris
  | none => []

-- The merge loop of fireChange: push each reason not already present.
def mergeChanges (pending : List RepositoryChange) (changes : List RepositoryChange) :
    List RepositoryChange :=
  changes.foldl (fun acc reason => if reason ∈ acc then acc else acc ++ [reason]) pending

/-- The unconditional part of fireChange: lazily create the debounced
wrapper, lazily create the pending event, merge the new reasons into it,
and invoke the onAnyRepositoryChanged callback with an event holding just
the reasons of this call. -/
def fireChangeBase (changes : List RepositoryChange) (s : RepoState) : RepoState :=
  { s with
    fireChangeDebouncedCreated := true
    pendingRepoChange := some ⟨mergeChanges (pendingChangesOf s) changes⟩
    anyRepoCalls := s.anyRepoCalls ++ [⟨changes⟩] }

/-- fireChange: after accumulating, return early while suspended; otherwise
call the debounced wrapper, which resets the trailing-edge timer to the
full window. -/
def fireChange (changes : List RepositoryChange) (s : RepoState) : RepoState :=
  if s.suspended then fireChangeBase changes s
  else { fireChangeBase changes s with repoTimer := some REPO_DEBOUNCE }

/-- fireChangeCore: on an empty accumulator return; otherwise clear the
accumulator and fire the captured event on the onDidChange emitter. -/
def fireChangeCore (s : RepoState) : RepoState :=
  match s.pendingRepoChange with
  | none => s
  | some e =>
    { s with pendingRepoChange := none, publishedRepo := s.publishedRepo ++ [e] }

def fireFileSystemChangeBase (uri : Uri) (s : RepoState) : RepoState :=
  { s with
    fireFsDebouncedCreated := true
    pendingFileSystemChange := some ⟨pendingUrisOf s ++ [uri]⟩ }

def fireFileSystemChange (uri : Uri) (s : RepoState) : RepoState :=
  if s.suspended then fireFileSystemChangeBase uri s
  else { fireFileSystemChangeBase uri s with fsTimer := some FS_DEBOUNCE }

/-- fireFileSystemChangeCore: on an empty accumulator return; otherwise
clear the accumulator, filter the captured uris through the external
excludeIgnoredUris collaborator, drop the flush if nothing survives, and
fire on the onDidChangeFileSystem emitter (the original event when the
filter removed nothing, judged by length, else a copy with the filtered
uris). -/
def fireFileSystemChangeCore (excl : List Uri → List Uri) (s : RepoState) : RepoState :=
  match s.pendingFileSystemChange with
  | none => s
  | some e =>
    let s1 := { s with pendingFileSystemChange := none }
    let uris := excl e.uris
    if uris.length = 0 then s1
    else
      let e2 := if uris.length = e.uris.length then e else ⟨uris⟩
      { s1 with publishedFs := s1.publishedFs ++ [e2] }

def suspend (s : RepoState) : RepoState :=
  { s with suspended := true }

/-- resume: clear the flag if set; if a pending event exists, call the
corresponding debounced wrapper (which arms the trailing-edge timer for a
full window). -/
def resume (s : RepoState) : RepoState :=
  if s.suspended then
    let s1 := { s with suspended := false }
    let s2 :=
      if s1.pendingRepoChange.isSome then { s1 with repoTimer := some REPO_DEBOUNCE } else s1
    if s2.pendingFileSystemChange.isSome then { s2 with fsTimer := some FS_DEBOUNCE } else s2
  else s

/-- onFileSystemChanged: drop raw watcher notifications whose path matches
ignoreGitRegex before accumulating. -/
def onFileSystemChanged (uri : Uri) (s : RepoState) : RepoState :=
  if ignoreGitTest uri then s else fireFileSystemChange uri s

/-- onRepositoryChanged: clear the last-fetched cache, apply the cache
resets of the matched classification branch, and fire its categories. -/
def onRepositoryChanged (uri : Option Uri) (s : RepoState) : RepoState :=
  let c := classifyPath uri
  let s1 :=
    { s with
      lastFetchedCached := false
      branchCached := s.branchCached && !c.resetBranch
      remotesCached := s.remotesCached && !c.resetRemotes }
  fireChange c.changes s1

-- Spec-modelled debounce timers: one time unit passes; a timer that
-- reaches the end of its window runs the wrapped core function.
def tickRepoTimer (s : RepoState) : RepoState :=
  match s.repoTimer with
  | none => s
  | some t =>
    if t ≤ 1 then fireChangeCore { s with repoTimer := none }
    else { s with repoTimer := some (t - 1) }

def tickFsTimer (excl : List Uri → List Uri) (s : RepoState) : RepoState :=
  match s.fsTimer with
  | none => s
  | some t =>
    if t ≤ 1 then fireFileSystemChangeCore excl { s with fsTimer := none }
    else { s with fsTimer := some (t - 1) }

def tick (excl : List Uri → List Uri) (s : RepoState) : RepoState :=
  tickFsTimer excl (tickRepoTimer s)

def elapse (excl : List Uri → List Uri) : Nat → RepoState → RepoState
  | 0, s => s
  | n + 1, s => elapse excl n (tick excl s)

-- Interleavable steps: the two watcher entry points, a direct internal
-- fireChange call, the visibility gate, and the passage of one time unit.
inductive Step
  | repoEvent : Option Uri → Step
  | fsEvent : Uri → Step
  | record : List RepositoryChange → Step
  | suspendStep : Step
  | resumeStep : Step
  | tickStep : Step
deriving DecidableEq

def applyStep (excl : List Uri → List Uri) (s : RepoState) : Step → RepoState
  | Step.repoEvent u => onRepositoryChanged u s
  | Step.fsEvent u => onFileSystemChanged u s
  | Step.record cs => fireChange cs s
  | Step.suspendStep => suspend s
  | Step.resumeStep => resume s
  | Step.tickStep => tick excl s

def run (excl : List Uri → List Uri) (s : RepoState) (steps : List Step) : RepoState :=
  steps.foldl (applyStep excl) s

-- An excludeIgnoredUris instance that filters nothing (no watched file is
-- git-ignored), used for concrete runs.
def exclId : List Uri → List Uri := fun l => l

-- Concrete watched paths for concrete runs.
def configPathEx : Uri := "/repo/.git/config".toList
def headsPathEx : Uri := "/repo/.git/refs/heads/main".toList
def remotesPathEx : Uri := "/repo/.git/refs/remotes/origin/main".toList
def plainPathEx : Uri := "/repo/src/app.ts".toList
def gitInnerPathEx : Uri := "/repo/.git/objects/ab".toList

-- Boolean form of the C10 invariant: neither the pending filesystem
-- accumulator nor any flushed filesystem event holds a uri inside a .git
-- directory.
def fsCleanInvariant (s : RepoState) : Bool :=
  (match s.pendingFileSystemChange with
   | none => true
   | some e => e.uris.all (fun u => !ignoreGitTest u)) &&
  s.publishedFs.all (fun e => e.uris.all (fun u => !ignoreGitTest u))

-- Delegated mutating operations. The external git executor, the host
-- command bridge and the built-in git repository are collaborators; each
-- awaited call either succeeds or rejects, modelled as an Except value.
inductive GitError
  | err : Nat → GitError
deriving DecidableEq

/-- The observable outcome of one delegated operation: the repository
state afterwards, the errors handed to the logger, and the user-visible
messages shown. The operation itself always resolves (returns void): there
is no error outcome in this type. -/
structure OpResult where
  state : RepoState
  logged : List GitError
  messages : List String
deriving DecidableEq

/-- fetchCore: await the external fetch; on success fire an Unknown
change; on rejection log the error and show one generic message. -/
def fetchCore (fetchResult : Except GitError Unit) (s : RepoState) : OpResult :=
  match fetchResult with
  | Except.ok _ => ⟨fireChange [RepositoryChange.Unknown] s, [], []⟩
  | Except.error ex => ⟨s, [ex], ["Unable to fetch repository"]⟩

/-- The try-block of pullCore: check for a tracking branch; if tracking,
run the host pull command; otherwise fetch when the fetch-on-pull setting
is on. -/
def pullCoreBody (hasTracking : Except GitError Bool) (fetchOnPull : Bool)
    (cmdResult : Except GitError Unit) (fetchResult : Except GitError Unit) :
    Except GitError Unit := do
  let tracking ← hasTracking
  if tracking then cmdResult
  else if fetchOnPull then fetchResult
  else pure ()

def pullCore (hasTracking : Except GitError Bool) (fetchOnPull : Bool)
    (cmdResult : Except GitError Unit) (fetchResult : Except GitError Unit)
    (s : RepoState) : OpResult :=
  match pullCoreBody hasTracking fetchOnPull cmdResult fetchResult with
  | Except.ok _ => ⟨fireChange [RepositoryChange.Unknown] s, [], []⟩
  | Except.error ex => ⟨s, [ex], ["Unable to pull repository"]⟩

inductive PushReference
  | noRef
  | branchRef : String → PushReference
  | commitRef : String → PushReference
deriving DecidableEq

/-- External collaborators awaited inside pushCore. Branches are modelled
by their id; getRepo yields the built-in git repository when present. -/
structure PushEnv where
  getRepo : Except GitError (Option Unit)
  getBranchNamed : Except GitError (Option Nat)
  getBranchCurrent : Except GitError (Option Nat)
  repoPush : Except GitError Unit
  execCommand : Except GitError Unit

/-- The try-block of pushCore. The returned boolean records whether the
block ran to its end (an early return skips the final fireChange). The
force flag only selects the name of the host command; both names are
modelled by execCommand. -/
def pushCoreBody (reference : PushReference) (publish : Option String)
    (_force : Bool) (env : PushEnv) : Except GitError Bool :=
  match reference with
  | PushReference.branchRef _ => do
      let repo ← env.getRepo
      match repo with
      | none => pure false
      | some _ =>
        match publish with
        | some _ => do
            let _ ← env.repoPush
            pure true
        | none => do
            let b ← env.getBranchNamed
            match b with
            | none => pure false
            | some bid => do
                let cur ← env.getBranchCurrent
                if some bid = cur then do
                  let _ ← env.execCommand
                  pure true
                else do
                  let _ ← env.repoPush
                  pure true
  | PushReference.commitRef _ => do
      let repo ← env.getRepo
      match repo with
      | none => pure false
      | some _ => do
          let b ← env.getBranchCurrent
          match b with
          | none => pure false
          | some _ => do
              let _ ← env.repoPush
              pure true
  | PushReference.noRef => do
      let _ ← env.execCommand
      pure true

def pushCore (reference : PushReference) (publish : Option String) (force : Bool)
    (env : PushEnv) (s : RepoState) : OpResult :=
  match pushCoreBody reference publish force env with
  | Except.ok true => ⟨fireChange [RepositoryChange.Unknown] s, [], []⟩
  | Except.ok false => ⟨s, [], []⟩
  | Except.error ex => ⟨s, [ex], ["Unable to push repository"]⟩

/-- switchCore: await the external checkout; on success fire an Unknown
change; on rejection log the error and show one generic message. -/
def switchCore (checkoutResult : Except GitError Unit) (s : RepoState) : OpResult :=
  match checkoutResult with
  | Except.ok _ => ⟨fireChange [RepositoryChange.Unknown] s, [], []⟩
  | Except.error ex => ⟨s, [ex], ["Unable to switch to reference"]⟩

/-- Modelled from the spec: the gate decorator applied to the mutating
operations comes from the system module, which is not under src/. Per the
spec it is an explicit per-key in-flight-operation mapping, consulted
before starting new work: a call whose derived key is already in flight
receives the stored in-flight result instead of starting the delegate. -/
structure GateState (K V : Type) where
  inflight : List (K × V)

def gateLookup {K V : Type} [DecidableEq K] : List (K × V) → K → Option V
  | [], _ => none
  | (k1, v) :: rest, k => if k = k1 then some v else gateLookup rest k

/-- Modelled from the spec: one gated call. The delegate is invoked on the
current execution counter; the counter in the result counts how many times
the external delegate has been started. -/
def gateCall {K V : Type} [DecidableEq K] (delegate : Nat → V) (g : GateState K V)
    (execCount : Nat) (k : K) : V × GateState K V × Nat :=
  match gateLookup g.inflight k with
  | some v => (v, g, execCount)
  | none =>
    let v := delegate execCount
    (v, ⟨(k, v) :: g.inflight⟩, execCount + 1)

set_option maxRecDepth 40000

-- Field-preservation facts for the state operations.

@[simp]
theorem fireChange_pendingRepo (cs : List RepositoryChange) (s : RepoState) :
    (fireChange cs s).pendingRepoChange = some ⟨mergeChanges (pendingChangesOf s) cs⟩ := by
  simp only [fireChange]
  split <;> rfl

@[simp]
theorem fireChange_suspended (cs : List RepositoryChange) (s : RepoState) :
    (fireChange cs s).suspended = s.suspended := by
  simp only [fireChange]
  split <;> rfl

@[simp]
theorem fireChange_publishedRepo (cs : List RepositoryChange) (s : RepoState) :
    (fireChange cs s).publishedRepo = s.publishedRepo := by
  simp only [fireChange]
  split <;> rfl

@[simp]
theorem fireChange_publishedFs (cs : List RepositoryChange) (s : RepoState) :
    (fireChange cs s).publishedFs = s.publishedFs := by
  simp only [fireChange]
  split <;> rfl

@[simp]
theorem fireChange_pendingFs (cs : List RepositoryChange) (s : RepoState) :
    (fireChange cs s).pendingFileSystemChange = s.pendingFileSystemChange := by
  simp only [fireChange]
  split <;> rfl

@[simp]
theorem fireChange_fsTimer (cs : List RepositoryChange) (s : RepoState) :
    (fireChange cs s).fsTimer = s.fsTimer := by
  simp only [fireChange]
  split <;> rfl

@[simp]
theorem fireChange_branchCached (cs : List RepositoryChange) (s : RepoState) :
    (fireChange cs s).branchCached = s.branchCached := by
  simp only [fireChange]
  split <;> rfl

@[simp]
theorem fireChange_remotesCached (cs : List RepositoryChange) (s : RepoState) :
    (fireChange cs s).remotesCached = s.remotesCached := by
  simp only [fireChange]
  split <;> rfl

@[simp]
theorem fireChange_lastFetchedCached (cs : List RepositoryChange) (s : RepoState) :
    (fireChange cs s).lastFetchedCached = s.lastFetchedCached := by
  simp only [fireChange]
  split <;> rfl

@[simp]
theorem fireChange_repoTimer (cs : List RepositoryChange) (s : RepoState) :
    (fireChange cs s).repoTimer =
      if s.suspended then s.repoTimer else some REPO_DEBOUNCE := by
  simp only [fireChange]
  split <;> rfl

@[simp]
theorem fireFileSystemChange_fsTimer (u : Uri) (s : RepoState) :
    (fireFileSystemChange u s).fsTimer =
      if s.suspended then s.fsTimer else some FS_DEBOUNCE := by
  simp only [fireFileSystemChange]
  split <;> rfl

theorem fireChange_repoTimer_susp (cs : List RepositoryChange) (s : RepoState)
    (h : s.suspended = true) : (fireChange cs s).repoTimer = s.repoTimer := by
  simp only [fireChange, h]
  rfl

theorem fireChange_repoTimer_active (cs : List RepositoryChange) (s : RepoState)
    (h : s.suspended = false) : (fireChange cs s).repoTimer = some REPO_DEBOUNCE := by
  simp only [fireChange, h]
  rfl

theorem fireChange_susp_eq (cs : List RepositoryChange) (s : RepoState)
    (h : s.suspended = true) : fireChange cs s = fireChangeBase cs s := by
  simp [fireChange, h]

theorem fireChange_active_eq (cs : List RepositoryChange) (s : RepoState)
    (h : s.suspended = false) :
    fireChange cs s = { fireChangeBase cs s with repoTimer := some REPO_DEBOUNCE } := by
  simp [fireChange, h]

@[simp]
theorem fireFileSystemChange_suspended (u : Uri) (s : RepoState) :
    (fireFileSystemChange u s).suspended = s.suspended := by
  simp only [fireFileSystemChange]
  split <;> rfl

@[simp]
theorem fireFileSystemChange_pendingFs (u : Uri) (s : RepoState) :
    (fireFileSystemChange u s).pendingFileSystemChange = some ⟨pendingUrisOf s ++ [u]⟩ := by
  simp only [fireFileSystemChange]
  split <;> rfl

@[simp]
theorem fireFileSystemChange_publishedFs (u : Uri) (s : RepoState) :
    (fireFileSystemChange u s).publishedFs = s.publishedFs := by
  simp only [fireFileSystemChange]
  split <;> rfl

@[simp]
theorem fireFileSystemChange_publishedRepo (u : Uri) (s : RepoState) :
    (fireFileSystemChange u s).publishedRepo = s.publishedRepo := by
  simp only [fireFileSystemChange]
  split <;> rfl

@[simp]
theorem fireFileSystemChange_pendingRepo (u : Uri) (s : RepoState) :
    (fireFileSystemChange u s).pendingRepoChange = s.pendingRepoChange := by
  simp only [fireFileSystemChange]
  split <;> rfl

@[simp]
theorem fireFileSystemChange_repoTimer (u : Uri) (s : RepoState) :
    (fireFileSystemChange u s).repoTimer = s.repoTimer := by
  simp only [fireFileSystemChange]
  split <;> rfl

theorem fireFileSystemChange_fsTimer_susp (u : Uri) (s : RepoState)
    (h : s.suspended = true) : (fireFileSystemChange u s).fsTimer = s.fsTimer := by
  simp only [fireFileSystemChange, h]
  rfl

@[simp]
theorem fireChangeCore_suspended (s : RepoState) :
    (fireChangeCore s).suspended = s.suspended := by
  cases h : s.pendingRepoChange <;> simp [fireChangeCore, h]

@[simp]
theorem fireChangeCore_fsTimer (s : RepoState) :
    (fireChangeCore s).fsTimer = s.fsTimer := by
  cases h : s.pendingRepoChange <;> simp [fireChangeCore, h]

@[simp]
theorem fireChangeCore_repoTimer (s : RepoState) :
    (fireChangeCore s).repoTimer = s.repoTimer := by
  cases h : s.pendingRepoChange <;> simp [fireChangeCore, h]

@[simp]
theorem fireChangeCore_pendingFs (s : RepoState) :
    (fireChangeCore s).pendingFileSystemChange = s.pendingFileSystemChange := by
  cases h : s.pendingRepoChange <;> simp [fireChangeCore, h]

@[simp]
theorem fireChangeCore_publishedFs (s : RepoState) :
    (fireChangeCore s).publishedFs = s.publishedFs := by
  cases h : s.pendingRepoChange <;> simp [fireChangeCore, h]

@[simp]
theorem fireFileSystemChangeCore_suspended (excl : List Uri → List Uri) (s : RepoState) :
    (fireFileSystemChangeCore excl s).suspended = s.suspended := by
  cases h : s.pendingFileSystemChange <;> simp [fireFileSystemChangeCore, h]
  split
  · rfl
  · rfl

@[simp]
theorem fireFileSystemChangeCore_repoTimer (excl : List Uri → List Uri) (s : RepoState) :
    (fireFileSystemChangeCore excl s).repoTimer = s.repoTimer := by
  cases h : s.pendingFileSystemChange <;> simp [fireFileSystemChangeCore, h]
  split
  · rfl
  · rfl

@[simp]
theorem fireFileSystemChangeCore_fsTimer (excl : List Uri → List Uri) (s : RepoState) :
    (fireFileSystemChangeCore excl s).fsTimer = s.fsTimer := by
  cases h : s.pendingFileSystemChange <;> simp [fireFileSystemChangeCore, h]
  split
  · rfl
  · rfl

@[simp]
theorem fireFileSystemChangeCore_pendingRepo (excl : List Uri → List Uri) (s : RepoState) :
    (fireFileSystemChangeCore excl s).pendingRepoChange = s.pendingRepoChange := by
  cases h : s.pendingFileSystemChange <;> simp [fireFileSystemChangeCore, h]
  split
  · rfl
  · rfl

@[simp]
theorem fireFileSystemChangeCore_publishedRepo (excl : List Uri → List Uri) (s : RepoState) :
    (fireFileSystemChangeCore excl s).publishedRepo = s.publishedRepo := by
  cases h : s.pendingFileSystemChange <;> simp [fireFileSystemChangeCore, h]
  split
  · rfl
  · rfl

@[simp]
theorem suspend_fields (s : RepoState) :
    (suspend s).suspended = true ∧ (suspend s).repoTimer = s.repoTimer ∧
    (suspend s).fsTimer = s.fsTimer ∧ (suspend s).publishedRepo = s.publishedRepo ∧
    (suspend s).publishedFs = s.publishedFs ∧
    (suspend s).pendingRepoChange = s.pendingRepoChange ∧
    (suspend s).pendingFileSystemChange = s.pendingFileSystemChange := by
  simp [suspend]

@[simp]
theorem resume_publishedRepo (s : RepoState) :
    (resume s).publishedRepo = s.publishedRepo := by
  simp only [resume]
  split
  · split <;> split <;> rfl
  · rfl

@[simp]
theorem resume_publishedFs (s : RepoState) :
    (resume s).publishedFs = s.publishedFs := by
  simp only [resume]
  split
  · split <;> split <;> rfl
  · rfl

@[simp]
theorem resume_pendingRepo (s : RepoState) :
    (resume s).pendingRepoChange = s.pendingRepoChange := by
  simp only [resume]
  split
  · split <;> split <;> rfl
  · rfl

@[simp]
theorem resume_pendingFs (s : RepoState) :
    (resume s).pendingFileSystemChange = s.pendingFileSystemChange := by
  simp only [resume]
  split
  · split <;> split <;> rfl
  · rfl

-- Merge-loop lemmas: the accumulator is the deduplicated union.

theorem mergeChanges_cons (acc : List RepositoryChange) (a : RepositoryChange)
    (t : List RepositoryChange) :
    mergeChanges acc (a :: t) = mergeChanges (if a ∈ acc then acc else acc ++ [a]) t := rfl

theorem mem_mergeChanges (l : List RepositoryChange) :
    ∀ (acc : List RepositoryChange) (c : RepositoryChange),
      c ∈ mergeChanges acc l ↔ c ∈ acc ∨ c ∈ l := by
  induction l with
  | nil => intro acc c; simp [mergeChanges]
  | cons a t ih =>
    intro acc c
    rw [mergeChanges_cons, ih]
    by_cases h : a ∈ acc
    · simp only [if_pos h, List.mem_cons]
      constructor
      · intro hc; tauto
      · intro hc
        rcases hc with hc | hc | hc
        · exact Or.inl hc
        · exact Or.inl (hc ▸ h)
        · exact Or.inr hc
    · simp only [if_neg h, List.mem_append, List.mem_singleton, List.mem_cons]
      tauto

theorem nodup_mergeChanges (l : List RepositoryChange) :
    ∀ acc : List RepositoryChange, acc.Nodup → (mergeChanges acc l).Nodup := by
  induction l with
  | nil => intro acc h; exact h
  | cons a t ih =>
    intro acc h
    rw [mergeChanges_cons]
    apply ih
    by_cases ha : a ∈ acc
    · simpa [ha] using h
    · simp [ha, List.nodup_append, h]

theorem mem_foldl_mergeChanges (css : List (List RepositoryChange)) :
    ∀ (acc : List RepositoryChange) (c : RepositoryChange),
      c ∈ css.foldl mergeChanges acc ↔ c ∈ acc ∨ ∃ l ∈ css, c ∈ l := by
  induction css with
  | nil => intro acc c; simp
  | cons l t ih =>
    intro acc c
    rw [List.foldl_cons, ih, mem_mergeChanges]
    simp only [List.mem_cons]
    constructor
    · rintro ((h | h) | ⟨x, hx, hc⟩)
      · exact Or.inl h
      · exact Or.inr ⟨l, Or.inl rfl, h⟩
      · exact Or.inr ⟨x, Or.inr hx, hc⟩
    · rintro (h | ⟨x, hx | hx, hc⟩)
      · exact Or.inl (Or.inl h)
      · exact Or.inl (Or.inr (hx ▸ hc))
      · exact Or.inr ⟨x, hx, hc⟩

theorem nodup_foldl_mergeChanges (css : List (List RepositoryChange)) :
    ∀ acc : List RepositoryChange, acc.Nodup → (css.foldl mergeChanges acc).Nodup := by
  induction css with
  | nil => intro acc h; exact h
  | cons l t ih => intro acc h; exact ih _ (nodup_mergeChanges l acc h)

-- Timer lemmas for the spec-modelled debounce.

theorem tickRepoTimer_none (s : RepoState) (h : s.repoTimer = none) :
    tickRepoTimer s = s := by
  simp [tickRepoTimer, h]

theorem tickFsTimer_none (excl : List Uri → List Uri) (s : RepoState) (h : s.fsTimer = none) :
    tickFsTimer excl s = s := by
  simp [tickFsTimer, h]

theorem elapse_add (excl : List Uri → List Uri) (m n : Nat) :
    ∀ s : RepoState, elapse excl (m + n) s = elapse excl n (elapse excl m s) := by
  induction m with
  | zero => intro s; simp [elapse]
  | succ k ih =>
    intro s
    rw [Nat.succ_add]
    show elapse excl (k + n) (tick excl s) = _
    rw [ih]
    rfl

theorem elapse_idle (excl : List Uri → List Uri) (d : Nat) (s : RepoState)
    (h1 : s.repoTimer = none) (h2 : s.fsTimer = none) : elapse excl d s = s := by
  induction d with
  | zero => rfl
  | succ k ih =>
    show elapse excl k (tick excl s) = s
    rw [tick, tickRepoTimer_none s h1, tickFsTimer_none excl s h2]
    exact ih

theorem elapse_repo_run (excl : List Uri → List Uri) :
    ∀ (t : Nat) (s : RepoState), s.repoTimer = some t → 1 ≤ t → s.fsTimer = none →
      elapse excl t s = fireChangeCore { s with repoTimer := none } := by
  intro t
  induction t with
  | zero => intro s _ h1 _; omega
  | succ k ih =>
    intro s ht _ hfs
    show elapse excl k (tick excl s) = _
    rcases Nat.eq_zero_or_pos k with hk | hk
    · subst hk
      have hr : tickRepoTimer s = fireChangeCore { s with repoTimer := none } := by
        simp [tickRepoTimer, ht]
      have htick : tick excl s = fireChangeCore { s with repoTimer := none } := by
        rw [tick, hr]
        exact tickFsTimer_none excl _ (by rw [fireChangeCore_fsTimer]; exact hfs)
      rw [htick]
      rfl
    · have hr : tickRepoTimer s = { s with repoTimer := some k } := by
        simp [tickRepoTimer, ht]
        omega
      have htick : tick excl s = { s with repoTimer := some k } := by
        rw [tick, hr]
        exact tickFsTimer_none excl _ hfs
      rw [htick]
      exact ih { s with repoTimer := some k } rfl hk hfs

theorem elapse_repo_partial (excl : List Uri → List Uri) :
    ∀ (d t : Nat) (s : RepoState), s.repoTimer = some t → d < t → s.fsTimer = none →
      elapse excl d s = { s with repoTimer := some (t - d) } := by
  intro d
  induction d with
  | zero =>
    intro t s ht _ _
    show s = _
    rw [Nat.sub_zero, ← ht]
  | succ k ih =>
    intro t s ht hd hfs
    show elapse excl k (tick excl s) = _
    have hr : tickRepoTimer s = { s with repoTimer := some (t - 1) } := by
      simp [tickRepoTimer, ht]
      omega
    have htick : tick excl s = { s with repoTimer := some (t - 1) } := by
      rw [tick, hr]
      exact tickFsTimer_none excl _ hfs
    rw [htick]
    have hres := ih (t - 1) { s with repoTimer := some (t - 1) } rfl (by omega) hfs
    rw [hres]
    have harith : t - 1 - k = t - (k + 1) := by omega
    rw [harith]

theorem elapse_fs_run (excl : List Uri → List Uri) :
    ∀ (t : Nat) (s : RepoState), s.fsTimer = some t → 1 ≤ t → s.repoTimer = none →
      elapse excl t s = fireFileSystemChangeCore excl { s with fsTimer := none } := by
  intro t
  induction t with
  | zero => intro s _ h1 _; omega
  | succ k ih =>
    intro s ht _ hrepo
    show elapse excl k (tick excl s) = _
    rcases Nat.eq_zero_or_pos k with hk | hk
    · subst hk
      have htick : tick excl s = fireFileSystemChangeCore excl { s with fsTimer := none } := by
        rw [tick, tickRepoTimer_none s hrepo]
        simp [tickFsTimer, ht]
      rw [htick]
      rfl
    · have htick : tick excl s = { s with fsTimer := some k } := by
        rw [tick, tickRepoTimer_none s hrepo]
        simp [tickFsTimer, ht]
        omega
      rw [htick]
      exact ih { s with fsTimer := some k } rfl hk hrepo

theorem elapse_fs_partial (excl : List Uri → List Uri) :
    ∀ (d t : Nat) (s : RepoState), s.fsTimer = some t → d < t → s.repoTimer = none →
      elapse excl d s = { s with fsTimer := some (t - d) } := by
  intro d
  induction d with
  | zero =>
    intro t s ht _ _
    show s = _
    rw [Nat.sub_zero, ← ht]
  | succ k ih =>
    intro t s ht hd hrepo
    show elapse excl k (tick excl s) = _
    have htick : tick excl s = { s with fsTimer := some (t - 1) } := by
      rw [tick, tickRepoTimer_none s hrepo]
      simp [tickFsTimer, ht]
      omega
    rw [htick]
    have hres := ih (t - 1) { s with fsTimer := some (t - 1) } rfl (by omega) hrepo
    rw [hres]
    have harith : t - 1 - k = t - (k + 1) := by omega
    rw [harith]

-- Run lemmas.

theorem run_cons (excl : List Uri → List Uri) (s : RepoState) (st : Step) (l : List Step) :
    run excl s (st :: l) = run excl (applyStep excl s st) l := rfl

theorem run_append (excl : List Uri → List Uri) (s : RepoState) (l1 l2 : List Step) :
    run excl s (l1 ++ l2) = run excl (run excl s l1) l2 :=
  List.foldl_append _ _ _ _

-- The combined effect of a classified watcher notification on the caches
-- and on the accumulator.

theorem onRepositoryChanged_classified (u : Option Uri) (s : RepoState) (c : Classification)
    (hc : classifyPath u = c) (hp : s.pendingRepoChange = none) :
    (onRepositoryChanged u s).pendingRepoChange = some ⟨mergeChanges [] c.changes⟩ ∧
    (onRepositoryChanged u s).branchCached = (s.branchCached && !c.resetBranch) ∧
    (onRepositoryChanged u s).remotesCached = (s.remotesCached && !c.resetRemotes) ∧
    (onRepositoryChanged u s).lastFetchedCached = false := by
  refine ⟨?_, ?_, ?_, ?_⟩ <;> simp [onRepositoryChanged, hc, pendingChangesOf, hp]

-- Unfolding lemmas for the two flush routines and resume.

theorem fireChangeCore_none (s : RepoState) (h : s.pendingRepoChange = none) :
    fireChangeCore s = s := by
  simp [fireChangeCore, h]

theorem fireChangeCore_some (s : RepoState) (e : RepositoryChangeEvent)
    (h : s.pendingRepoChange = some e) :
    fireChangeCore s =
      { s with pendingRepoChange := none, publishedRepo := s.publishedRepo ++ [e] } := by
  simp [fireChangeCore, h]

theorem fireFileSystemChangeCore_none (excl : List Uri → List Uri) (s : RepoState)
    (h : s.pendingFileSystemChange = none) : fireFileSystemChangeCore excl s = s := by
  simp [fireFileSystemChangeCore, h]

theorem fireFileSystemChangeCore_some (excl : List Uri → List Uri) (s : RepoState)
    (e : RepositoryFileSystemChangeEvent) (h : s.pendingFileSystemChange = some e) :
    fireFileSystemChangeCore excl s =
      if (excl e.uris).length = 0 then { s with pendingFileSystemChange := none }
      else
        { s with
          pendingFileSystemChange := none
          publishedFs :=
            s.publishedFs ++
              [if (excl e.uris).length = e.uris.length then e else ⟨excl e.uris⟩] } := by
  simp [fireFileSystemChangeCore, h]

theorem resume_eq (s : RepoState) (h : s.suspended = true)
    (hp : s.pendingRepoChange.isSome = true) (hf : s.pendingFileSystemChange = none) :
    resume s = { s with suspended := false, repoTimer := some REPO_DEBOUNCE } := by
  simp only [resume, h, if_true]
  have hp1 : ({ s with suspended := false } : RepoState).pendingRepoChange.isSome = true := hp
  have hf1 :
      ({ s with suspended := false, repoTimer := some REPO_DEBOUNCE } :
        RepoState).pendingFileSystemChange = none := hf
  rw [if_pos hp1, if_neg (by rw [hf1]; simp)]

-- Running a batch of record steps accumulates the union and never
-- publishes; while suspended it never arms the timer, while active it
-- leaves the timer armed for a full window.

theorem run_records_susp (excl : List Uri → List Uri) (css : List (List RepositoryChange)) :
    ∀ s : RepoState, s.suspended = true →
      (run excl s (css.map Step.record)).suspended = true ∧
      (run excl s (css.map Step.record)).repoTimer = s.repoTimer ∧
      (run excl s (css.map Step.record)).fsTimer = s.fsTimer ∧
      (run excl s (css.map Step.record)).publishedRepo = s.publishedRepo ∧
      (run excl s (css.map Step.record)).publishedFs = s.publishedFs ∧
      (run excl s (css.map Step.record)).pendingFileSystemChange = s.pendingFileSystemChange ∧
      (run excl s (css.map Step.record)).pendingRepoChange =
        (if css.isEmpty then s.pendingRepoChange
         else some ⟨css.foldl mergeChanges (pendingChangesOf s)⟩) := by
  induction css with
  | nil => intro s h; simp [run, h]
  | cons cs t ih =>
    intro s h
    rw [List.map_cons, run_cons]
    have h1 : (applyStep excl s (Step.record cs)).suspended = true := by
      simp [applyStep, h]
    obtain ⟨i1, i2, i3, i4, i5, i6, i7⟩ := ih (applyStep excl s (Step.record cs)) h1
    refine ⟨i1, ?_, ?_, ?_, ?_, ?_, ?_⟩
    · rw [i2]; simp [applyStep, h]
    · rw [i3]; simp [applyStep]
    · rw [i4]; simp [applyStep]
    · rw [i5]; simp [applyStep]
    · rw [i6]; simp [applyStep]
    · rw [i7]
      have hpend :
          (applyStep excl s (Step.record cs)).pendingRepoChange =
            some ⟨mergeChanges (pendingChangesOf s) cs⟩ := by
        simp [applyStep]
      have hpof :
          pendingChangesOf (applyStep excl s (Step.record cs)) =
            mergeChanges (pendingChangesOf s) cs := by
        simp [pendingChangesOf, hpend]
      by_cases ht : t.isEmpty
      · simp [ht, hpend, List.isEmpty_iff.mp ht]
      · simp [ht, hpof]

theorem run_records_active (excl : List Uri → List Uri) (css : List (List RepositoryChange)) :
    ∀ s : RepoState, s.suspended = false →
      (run excl s (css.map Step.record)).suspended = false ∧
      (run excl s (css.map Step.record)).repoTimer =
        (if css.isEmpty then s.repoTimer else some REPO_DEBOUNCE) ∧
      (run excl s (css.map Step.record)).fsTimer = s.fsTimer ∧
      (run excl s (css.map Step.record)).publishedRepo = s.publishedRepo ∧
      (run excl s (css.map Step.record)).publishedFs = s.publishedFs ∧
      (run excl s (css.map Step.record)).pendingFileSystemChange = s.pendingFileSystemChange ∧
      (run excl s (css.map Step.record)).pendingRepoChange =
        (if css.isEmpty then s.pendingRepoChange
         else some ⟨css.foldl mergeChanges (pendingChangesOf s)⟩) := by
  induction css with
  | nil => intro s h; simp [run, h]
  | cons cs t ih =>
    intro s h
    rw [List.map_cons, run_cons]
    have h1 : (applyStep excl s (Step.record cs)).suspended = false := by
      simp [applyStep, h]
    obtain ⟨i1, i2, i3, i4, i5, i6, i7⟩ := ih (applyStep excl s (Step.record cs)) h1
    refine ⟨i1, ?_, ?_, ?_, ?_, ?_, ?_⟩
    · rw [i2]
      have harm : (applyStep excl s (Step.record cs)).repoTimer = some REPO_DEBOUNCE := by
        simp [applyStep, h]
      by_cases ht : t.isEmpty <;> simp [ht, harm]
    · rw [i3]; simp [applyStep]
    · rw [i4]; simp [applyStep]
    · rw [i5]; simp [applyStep]
    · rw [i6]; simp [applyStep]
    · rw [i7]
      have hpend :
          (applyStep excl s (Step.record cs)).pendingRepoChange =
            some ⟨mergeChanges (pendingChangesOf s) cs⟩ := by
        simp [applyStep]
      have hpof :
          pendingChangesOf (applyStep excl s (Step.record cs)) =
            mergeChanges (pendingChangesOf s) cs := by
        simp [pendingChangesOf, hpend]
      by_cases ht : t.isEmpty
      · simp [ht, hpend, List.isEmpty_iff.mp ht]
      · simp [ht, hpof]

-- Preservation of the filesystem-cleanliness invariant.

theorem pendingUrisOf_some (s : RepoState) (e : RepositoryFileSystemChangeEvent)
    (h : s.pendingFileSystemChange = some e) : pendingUrisOf s = e.uris := by
  simp [pendingUrisOf, h]

theorem pendingUrisOf_none (s : RepoState) (h : s.pendingFileSystemChange = none) :
    pendingUrisOf s = [] := by
  simp [pendingUrisOf, h]

theorem pendingChangesOf_some (s : RepoState) (e : RepositoryChangeEvent)
    (h : s.pendingRepoChange = some e) : pendingChangesOf s = e.changes := by
  simp [pendingChangesOf, h]

theorem pendingChangesOf_none (s : RepoState) (h : s.pendingRepoChange = none) :
    pendingChangesOf s = [] := by
  simp [pendingChangesOf, h]

theorem fsCleanInvariant_eqfields (s s1 : RepoState)
    (h1 : s1.pendingFileSystemChange = s.pendingFileSystemChange)
    (h2 : s1.publishedFs = s.publishedFs) :
    fsCleanInvariant s1 = fsCleanInvariant s := by
  simp [fsCleanInvariant, h1, h2]

@[simp]
theorem tickRepoTimer_pendingFs (s : RepoState) :
    (tickRepoTimer s).pendingFileSystemChange = s.pendingFileSystemChange := by
  cases h : s.repoTimer with
  | none => simp [tickRepoTimer, h]
  | some t =>
    simp only [tickRepoTimer, h]
    split
    · simp
    · rfl

@[simp]
theorem tickRepoTimer_publishedFs (s : RepoState) :
    (tickRepoTimer s).publishedFs = s.publishedFs := by
  cases h : s.repoTimer with
  | none => simp [tickRepoTimer, h]
  | some t =>
    simp only [tickRepoTimer, h]
    split
    · simp
    · rfl

theorem fsCore_clean (excl : List Uri → List Uri)
    (hexcl : ∀ (l : List Uri) (u : Uri), u ∈ excl l → u ∈ l) (s : RepoState)
    (h : fsCleanInvariant s = true) :
    fsCleanInvariant (fireFileSystemChangeCore excl s) = true := by
  cases hpf : s.pendingFileSystemChange with
  | none => rw [fireFileSystemChangeCore_none excl s hpf]; exact h
  | some e =>
    have h' := h
    simp only [fsCleanInvariant, hpf, Bool.and_eq_true, List.all_eq_true] at h'
    obtain ⟨hpend, hpub⟩ := h'
    rw [fireFileSystemChangeCore_some excl s e hpf]
    split
    · simp only [fsCleanInvariant, Bool.and_eq_true, List.all_eq_true]
      exact ⟨trivial, hpub⟩
    · simp only [fsCleanInvariant, Bool.and_eq_true, List.all_eq_true]
      refine ⟨trivial, ?_⟩
      intro ev hev
      rcases List.mem_append.mp hev with hev | hev
      · exact hpub ev hev
      · have hev2 : ev = if (excl e.uris).length = e.uris.length then e
            else ⟨excl e.uris⟩ := List.mem_singleton.mp hev
        subst hev2
        split
        · exact hpend
        · intro u hu
          exact hpend u (hexcl e.uris u hu)

theorem clean_step (excl : List Uri → List Uri)
    (hexcl : ∀ (l : List Uri) (u : Uri), u ∈ excl l → u ∈ l) (st : Step) (s : RepoState)
    (h : fsCleanInvariant s = true) : fsCleanInvariant (applyStep excl s st) = true := by
  cases st with
  | repoEvent u =>
    show fsCleanInvariant (onRepositoryChanged u s) = true
    rw [fsCleanInvariant_eqfields s _ (by simp [onRepositoryChanged])
      (by simp [onRepositoryChanged])]
    exact h
  | record cs =>
    show fsCleanInvariant (fireChange cs s) = true
    rw [fsCleanInvariant_eqfields s _ (by simp) (by simp)]
    exact h
  | suspendStep =>
    show fsCleanInvariant (suspend s) = true
    rw [fsCleanInvariant_eqfields s _ (by simp [suspend]) (by simp [suspend])]
    exact h
  | resumeStep =>
    show fsCleanInvariant (resume s) = true
    rw [fsCleanInvariant_eqfields s _ (by simp) (by simp)]
    exact h
  | fsEvent u =>
    show fsCleanInvariant (onFileSystemChanged u s) = true
    by_cases hg : ignoreGitTest u = true
    · simp [onFileSystemChanged, hg, h]
    · have hg2 : ignoreGitTest u = false := by
        revert hg; cases ignoreGitTest u <;> simp
      rw [onFileSystemChanged, if_neg (by simp [hg2])]
      cases hpf : s.pendingFileSystemChange with
      | none =>
        have h' := h
        simp only [fsCleanInvariant, hpf, Bool.and_eq_true, List.all_eq_true] at h'
        obtain ⟨-, hpub⟩ := h'
        simp only [fsCleanInvariant, fireFileSystemChange_pendingFs,
          fireFileSystemChange_publishedFs, Bool.and_eq_true, List.all_eq_true]
        refine ⟨?_, hpub⟩
        intro x hx
        rw [pendingUrisOf_none s hpf] at hx
        simp only [List.nil_append, List.mem_singleton] at hx
        rw [hx]
        simp [hg2]
      | some e =>
        have h' := h
        simp only [fsCleanInvariant, hpf, Bool.and_eq_true, List.all_eq_true] at h'
        obtain ⟨hpend, hpub⟩ := h'
        simp only [fsCleanInvariant, fireFileSystemChange_pendingFs,
          fireFileSystemChange_publishedFs, Bool.and_eq_true, List.all_eq_true]
        refine ⟨?_, hpub⟩
        intro x hx
        rw [pendingUrisOf_some s e hpf] at hx
        rcases List.mem_append.mp hx with hx | hx
        · exact hpend x hx
        · rw [List.mem_singleton.mp hx]
          simp [hg2]
  | tickStep =>
    show fsCleanInvariant (tick excl s) = true
    have h1 : fsCleanInvariant (tickRepoTimer s) = true := by
      rw [fsCleanInvariant_eqfields s _ (tickRepoTimer_pendingFs s)
        (tickRepoTimer_publishedFs s)]
      exact h
    cases hft : (tickRepoTimer s).fsTimer with
    | none => rw [tick, tickFsTimer_none excl _ hft]; exact h1
    | some t =>
      rw [tick]
      simp only [tickFsTimer, hft]
      split
      · exact fsCore_clean excl hexcl _
          ((fsCleanInvariant_eqfields (tickRepoTimer s) _ rfl rfl).trans h1)
      · exact (fsCleanInvariant_eqfields (tickRepoTimer s) _ rfl rfl).trans h1

/-- C10: for every excludeIgnoredUris collaborator that only removes uris,
every suspension state at startup, and every interleaving of watcher
notifications, records, suspend, resume, and time steps, every reachable
state satisfies the invariant that neither the pending filesystem
accumulator nor any flushed filesystem event contains a uri inside a .git
directory: raw notifications matching the .git pattern are dropped before
accumulation. -/
theorem C10_no_git_uris (excl : List Uri → List Uri)
    (hexcl : ∀ (l : List Uri) (u : Uri), u ∈ excl l → u ∈ l) (susp : Bool)
    (steps : List Step) :
    fsCleanInvariant (run excl (initialState susp) steps) = true := by
  have hgen : ∀ (l : List Step) (s : RepoState), fsCleanInvariant s = true →
      fsCleanInvariant (run excl s l) = true := by
    intro l
    induction l with
    | nil => intro s h; exact h
    | cons st l2 ih =>
      intro s h
      rw [run_cons]
      exact ih _ (clean_step excl hexcl st s h)
  exact hgen steps _ rfl

/-- C10, witness: the invariant holds after a concrete interleaving with a
working-tree notification, a notification inside .git (dropped), a
suspension window, and a flush. -/
theorem C10_witness :
    (∀ (l : List Uri) (u : Uri), u ∈ exclId l → u ∈ l) ∧
    fsCleanInvariant (run exclId (initialState false)
      [Step.fsEvent plainPathEx, Step.fsEvent gitInnerPathEx, Step.suspendStep,
        Step.fsEvent plainPathEx, Step.resumeStep, Step.tickStep]) = true :=
  ⟨fun _ _ h => h,
    C10_no_git_uris exclId (fun _ _ h => h) false
      [Step.fsEvent plainPathEx, Step.fsEvent gitInnerPathEx, Step.suspendStep,
        Step.fsEvent plainPathEx, Step.resumeStep, Step.tickStep]⟩

-- While suspended and with no armed timer, every step other than resume
-- keeps the machine quiet: nothing is published and no timer gets armed.

theorem quiet_step (excl : List Uri → List Uri) (st : Step) (s : RepoState)
    (hst : st ≠ Step.resumeStep) (h1 : s.suspended = true) (h2 : s.repoTimer = none)
    (h3 : s.fsTimer = none) :
    (applyStep excl s st).publishedRepo = s.publishedRepo ∧
    (applyStep excl s st).publishedFs = s.publishedFs ∧
    (applyStep excl s st).suspended = true ∧
    (applyStep excl s st).repoTimer = none ∧
    (applyStep excl s st).fsTimer = none := by
  cases st with
  | repoEvent u =>
    refine ⟨?_, ?_, ?_, ?_, ?_⟩ <;>
      simp [applyStep, onRepositoryChanged, h1, h2, h3]
  | fsEvent u =>
    by_cases hg : ignoreGitTest u = true
    · refine ⟨?_, ?_, ?_, ?_, ?_⟩ <;>
        simp [applyStep, onFileSystemChanged, hg, h1, h2, h3]
    · have hg2 : ignoreGitTest u = false := by
        revert hg; cases ignoreGitTest u <;> simp
      refine ⟨?_, ?_, ?_, ?_, ?_⟩ <;>
        simp [applyStep, onFileSystemChanged, hg2, h1, h2, h3]
  | record cs =>
    refine ⟨?_, ?_, ?_, ?_, ?_⟩ <;> simp [applyStep, h1, h2, h3]
  | suspendStep =>
    refine ⟨?_, ?_, ?_, ?_, ?_⟩ <;> simp [applyStep, suspend, h2, h3]
  | resumeStep => exact absurd rfl hst
  | tickStep =>
    have hid : applyStep excl s Step.tickStep = s := by
      show tick excl s = s
      rw [tick, tickRepoTimer_none s h2, tickFsTimer_none excl s h3]
    rw [hid]
    exact ⟨rfl, rfl, h1, h2, h3⟩

/-- C2, counterexample: after suspend, one record, and resume, nothing has
been published at the moment resume returns; the accumulated event is
still pending, and it is published only once the debounce window elapses
after resume. This refutes the claim that the event is published
synchronously at the resume call. -/
theorem C2_counterexample :
    (run exclId (initialState false)
        [Step.suspendStep, Step.record [RepositoryChange.Index],
          Step.resumeStep]).publishedRepo = [] ∧
    (run exclId (initialState false)
        [Step.suspendStep, Step.record [RepositoryChange.Index],
          Step.resumeStep]).pendingRepoChange = some ⟨[RepositoryChange.Index]⟩ ∧
    (elapse exclId REPO_DEBOUNCE
        (run exclId (initialState false)
          [Step.suspendStep, Step.record [RepositoryChange.Index],
            Step.resumeStep])).publishedRepo = [⟨[RepositoryChange.Index]⟩] := by decide

/-- C2, amended: for every execution of suspend, then at least one record,
then resume, no event is published synchronously at resume; resume instead
arms the debounce timer, and exactly one change event is published when
the debounce window elapses after resume, containing exactly the
deduplicated union of all categories recorded during suspension. -/
theorem C2_amended_resume_arms_debounce (excl : List Uri → List Uri)
    (css : List (List RepositoryChange)) (hne : css ≠ []) :
    (run excl (initialState false)
        (Step.suspendStep :: css.map Step.record ++ [Step.resumeStep])).publishedRepo = [] ∧
    ∃ e : RepositoryChangeEvent,
      (elapse excl REPO_DEBOUNCE
          (run excl (initialState false)
            (Step.suspendStep :: css.map Step.record ++ [Step.resumeStep]))).publishedRepo
        = [e] ∧
      (∀ c : RepositoryChange, c ∈ e.changes ↔ ∃ l ∈ css, c ∈ l) ∧
      e.changes.Nodup := by
  have hempty : css.isEmpty = false := by
    cases css with
    | nil => exact absurd rfl hne
    | cons a t => rfl
  have hsplit :
      run excl (initialState false)
          (Step.suspendStep :: css.map Step.record ++ [Step.resumeStep]) =
        resume (run excl (suspend (initialState false)) (css.map Step.record)) := by
    rw [run_append, run_cons]
    rfl
  obtain ⟨b1, b2, b3, b4, b5, b6, b7⟩ :=
    run_records_susp excl css (suspend (initialState false)) rfl
  have hpc : pendingChangesOf (suspend (initialState false)) = [] := rfl
  set sB := run excl (suspend (initialState false)) (css.map Step.record) with hsB
  have b7f : sB.pendingRepoChange = some ⟨css.foldl mergeChanges []⟩ := by
    rw [b7, if_neg (by simp [hempty]), hpc]
  have b6f : sB.pendingFileSystemChange = none := by rw [b6]; rfl
  have hres : resume sB = { sB with suspended := false, repoTimer := some REPO_DEBOUNCE } :=
    resume_eq sB b1 (by rw [b7f]; rfl) b6f
  constructor
  · rw [hsplit, resume_publishedRepo, b4]
    rfl
  · refine ⟨⟨css.foldl mergeChanges []⟩, ?_, ?_, ?_⟩
    · rw [hsplit]
      have ht : (resume sB).repoTimer = some REPO_DEBOUNCE := by rw [hres]
      have hf : (resume sB).fsTimer = none := by
        rw [hres]
        show sB.fsTimer = none
        rw [b3]
        rfl
      rw [elapse_repo_run excl REPO_DEBOUNCE (resume sB) ht (by norm_num [REPO_DEBOUNCE]) hf]
      have hpend2 : ({ resume sB with repoTimer := none } : RepoState).pendingRepoChange =
          some ⟨css.foldl mergeChanges []⟩ := by
        show (resume sB).pendingRepoChange = _
        rw [resume_pendingRepo, b7f]
      rw [fireChangeCore_some _ _ hpend2]
      have hpub : sB.publishedRepo = [] := by
        rw [b4]
        rfl
      simp [hpub]
    · intro c
      show c ∈ css.foldl mergeChanges [] ↔ _
      rw [mem_foldl_mergeChanges]
      simp
    · show (css.foldl mergeChanges []).Nodup
      exact nodup_foldl_mergeChanges css [] List.nodup_nil

/-- C2, witness: the amended theorem applied to a concrete suspension with
two overlapping record calls. -/
theorem C2_witness :
    ([[RepositoryChange.Index], [RepositoryChange.Heads, RepositoryChange.Index]] ≠
        ([] : List (List RepositoryChange))) ∧
    ((run exclId (initialState false)
        (Step.suspendStep ::
          [[RepositoryChange.Index],
            [RepositoryChange.Heads, RepositoryChange.Index]].map Step.record ++
            [Step.resumeStep])).publishedRepo = [] ∧
      ∃ e : RepositoryChangeEvent,
        (elapse exclId REPO_DEBOUNCE
            (run exclId (initialState false)
              (Step.suspendStep ::
                [[RepositoryChange.Index],
                  [RepositoryChange.Heads, RepositoryChange.Index]].map Step.record ++
                  [Step.resumeStep]))).publishedRepo = [e] ∧
        (∀ c : RepositoryChange,
            c ∈ e.changes ↔
              ∃ l ∈ [[RepositoryChange.Index],
                  [RepositoryChange.Heads, RepositoryChange.Index]], c ∈ l) ∧
        e.changes.Nodup) :=
  ⟨by decide,
    C2_amended_resume_arms_debounce exclId
      [[RepositoryChange.Index], [RepositoryChange.Heads, RepositoryChange.Index]]
      (by decide)⟩

/-- C3, counterexample: a record call arms the debounce timer, suspend is
then called, and the timer expires during suspension; the flush routine
has no suspension check, so the event is published to subscribers although
the suspend flag is still set, refuting the claim for interleavings in
which a timer was armed before suspension. -/
theorem C3_counterexample :
    Step.resumeStep ∉
      ([Step.record [RepositoryChange.Index], Step.suspendStep] ++
        List.replicate REPO_DEBOUNCE Step.tickStep) ∧
    (run exclId (initialState false)
        ([Step.record [RepositoryChange.Index], Step.suspendStep] ++
          List.replicate REPO_DEBOUNCE Step.tickStep)).suspended = true ∧
    (run exclId (initialState false)
        ([Step.record [RepositoryChange.Index], Step.suspendStep] ++
          List.replicate REPO_DEBOUNCE Step.tickStep)).publishedRepo =
      [⟨[RepositoryChange.Index]⟩] := by decide

/-- C3, amended: if no debounce timer is armed at the moment the machine
is suspended, then along every interleaving of records, watcher events,
suspends, and time steps that contains no resume, nothing is published on
either emitter while the suspend flag is set (and no timer ever becomes
armed). Records made during suspension accumulate without arming the
flush. A timer armed before suspend is excluded by hypothesis: as the
counterexample shows, such a timer still fires during suspension. -/
theorem C3_amended_quiet_suspension (excl : List Uri → List Uri) :
    ∀ steps : List Step, Step.resumeStep ∉ steps →
      ∀ s : RepoState, s.suspended = true → s.repoTimer = none → s.fsTimer = none →
        (run excl s steps).publishedRepo = s.publishedRepo ∧
        (run excl s steps).publishedFs = s.publishedFs ∧
        (run excl s steps).suspended = true := by
  intro steps
  induction steps with
  | nil => intro _ s h1 _ _; exact ⟨rfl, rfl, h1⟩
  | cons st l ih =>
    intro hres s h1 h2 h3
    have hst : st ≠ Step.resumeStep := by
      intro he
      exact hres (he ▸ List.mem_cons_self st l)
    have hl : Step.resumeStep ∉ l := fun hm => hres (List.mem_cons_of_mem st hm)
    obtain ⟨q1, q2, q3, q4, q5⟩ := quiet_step excl st s hst h1 h2 h3
    rw [run_cons]
    obtain ⟨r1, r2, r3⟩ := ih hl (applyStep excl s st) q3 q4 q5
    exact ⟨r1.trans q1, r2.trans q2, r3⟩

/-- C3, witness: the amended theorem applied to a suspended initial state
and a concrete resume-free interleaving of a record, a time step, and a
watcher notification. -/
theorem C3_witness :
    Step.resumeStep ∉
      [Step.record [RepositoryChange.Heads], Step.tickStep, Step.fsEvent plainPathEx,
        Step.suspendStep] ∧
    (initialState true).suspended = true ∧
    (initialState true).repoTimer = none ∧
    (initialState true).fsTimer = none ∧
    ((run exclId (initialState true)
        [Step.record [RepositoryChange.Heads], Step.tickStep, Step.fsEvent plainPathEx,
          Step.suspendStep]).publishedRepo = (initialState true).publishedRepo ∧
      (run exclId (initialState true)
        [Step.record [RepositoryChange.Heads], Step.tickStep, Step.fsEvent plainPathEx,
          Step.suspendStep]).publishedFs = (initialState true).publishedFs ∧
      (run exclId (initialState true)
        [Step.record [RepositoryChange.Heads], Step.tickStep, Step.fsEvent plainPathEx,
          Step.suspendStep]).suspended = true) :=
  ⟨by decide, rfl, rfl, rfl,
    C3_amended_quiet_suspension exclId
      [Step.record [RepositoryChange.Heads], Step.tickStep, Step.fsEvent plainPathEx,
        Step.suspendStep] (by decide) (initialState true) rfl rfl rfl⟩

-- A batch of record calls from a fresh active state, followed by a full
-- debounce window, flushes exactly one event holding the merged
-- accumulator.

theorem records_flush (excl : List Uri → List Uri) (css : List (List RepositoryChange))
    (hne : css ≠ []) :
    (elapse excl REPO_DEBOUNCE
        (run excl (initialState false) (css.map Step.record))).publishedRepo =
      [⟨css.foldl mergeChanges []⟩] := by
  have hempty : css.isEmpty = false := by
    cases css with
    | nil => exact absurd rfl hne
    | cons a t => rfl
  obtain ⟨a1, a2, a3, a4, a5, a6, a7⟩ := run_records_active excl css (initialState false) rfl
  set sR := run excl (initialState false) (css.map Step.record) with hsR
  have a2f : sR.repoTimer = some REPO_DEBOUNCE := by
    rw [a2, if_neg (by simp [hempty])]
  have a3f : sR.fsTimer = none := by rw [a3]; rfl
  have a7f : sR.pendingRepoChange = some ⟨css.foldl mergeChanges []⟩ := by
    rw [a7, if_neg (by simp [hempty])]
    rfl
  rw [elapse_repo_run excl REPO_DEBOUNCE sR a2f (by norm_num [REPO_DEBOUNCE]) a3f]
  have hpend : ({ sR with repoTimer := none } : RepoState).pendingRepoChange =
      some ⟨css.foldl mergeChanges []⟩ := a7f
  rw [fireChangeCore_some _ _ hpend]
  have hpub : sR.publishedRepo = [] := by rw [a4]; rfl
  simp [hpub]

/-- C4: for every nonempty batch of record calls coalesced into one flush,
the flushed event exists and is unique, its category list is, as a set,
the union of all recorded categories, each category appears at most once
however often it was recorded, and permuting the record calls flushes an
event with the same category set. -/
theorem C4_flush_union (excl : List Uri → List Uri) (css : List (List RepositoryChange))
    (hne : css ≠ []) :
    ∃ e : RepositoryChangeEvent,
      (elapse excl REPO_DEBOUNCE
          (run excl (initialState false) (css.map Step.record))).publishedRepo = [e] ∧
      (∀ c : RepositoryChange, c ∈ e.changes ↔ ∃ l ∈ css, c ∈ l) ∧
      e.changes.Nodup ∧
      ∀ css2 : List (List RepositoryChange), css.Perm css2 →
        ∃ e2 : RepositoryChangeEvent,
          (elapse excl REPO_DEBOUNCE
              (run excl (initialState false) (css2.map Step.record))).publishedRepo = [e2] ∧
          ∀ c : RepositoryChange, c ∈ e2.changes ↔ c ∈ e.changes := by
  refine ⟨⟨css.foldl mergeChanges []⟩, records_flush excl css hne, ?_, ?_, ?_⟩
  · intro c
    show c ∈ css.foldl mergeChanges [] ↔ _
    rw [mem_foldl_mergeChanges]
    simp
  · exact nodup_foldl_mergeChanges css [] List.nodup_nil
  · intro css2 hperm
    have hne2 : css2 ≠ [] := by
      intro h0
      have hlen := hperm.length_eq
      rw [h0] at hlen
      exact hne (List.length_eq_zero.mp hlen)
    refine ⟨⟨css2.foldl mergeChanges []⟩, records_flush excl css2 hne2, ?_⟩
    intro c
    show c ∈ css2.foldl mergeChanges [] ↔ c ∈ css.foldl mergeChanges []
    rw [mem_foldl_mergeChanges, mem_foldl_mergeChanges]
    simp only [List.not_mem_nil, false_or]
    constructor
    · rintro ⟨l, hl, hc⟩
      exact ⟨l, hperm.mem_iff.mpr hl, hc⟩
    · rintro ⟨l, hl, hc⟩
      exact ⟨l, hperm.mem_iff.mp hl, hc⟩

/-- C4, witness: the union theorem applied to a concrete batch in which one
category is recorded twice. -/
theorem C4_witness :
    ([[RepositoryChange.Heads], [RepositoryChange.Heads, RepositoryChange.Tags]] ≠
        ([] : List (List RepositoryChange))) ∧
    ∃ e : RepositoryChangeEvent,
      (elapse exclId REPO_DEBOUNCE
          (run exclId (initialState false)
            ([[RepositoryChange.Heads],
              [RepositoryChange.Heads, RepositoryChange.Tags]].map
              Step.record))).publishedRepo = [e] ∧
      (∀ c : RepositoryChange,
          c ∈ e.changes ↔
            ∃ l ∈ [[RepositoryChange.Heads],
                [RepositoryChange.Heads, RepositoryChange.Tags]], c ∈ l) ∧
      e.changes.Nodup ∧
      ∀ css2 : List (List RepositoryChange),
        List.Perm [[RepositoryChange.Heads],
            [RepositoryChange.Heads, RepositoryChange.Tags]] css2 →
        ∃ e2 : RepositoryChangeEvent,
          (elapse exclId REPO_DEBOUNCE
              (run exclId (initialState false) (css2.map Step.record))).publishedRepo = [e2] ∧
          ∀ c : RepositoryChange, c ∈ e2.changes ↔ c ∈ e.changes :=
  ⟨by decide,
    C4_flush_union exclId
      [[RepositoryChange.Heads], [RepositoryChange.Heads, RepositoryChange.Tags]]
      (by decide)⟩

/-- C6: the coalescer is a trailing-edge debounce with a 250-unit window
for semantic change events and a 2500-unit window for filesystem change
events, measured from the last call in a burst: two record calls less than
one window apart produce a single flush, two calls more than one window
apart produce two flushes, and likewise for two watcher notifications on
the filesystem channel. -/
theorem C6_debounce_windows :
    (REPO_DEBOUNCE = 250 ∧ FS_DEBOUNCE = 2500) ∧
    (∀ (excl : List Uri → List Uri) (a b : List RepositoryChange) (d : Nat),
        d < REPO_DEBOUNCE →
        (elapse excl REPO_DEBOUNCE
            (fireChange b
              (elapse excl d
                (fireChange a (initialState false))))).publishedRepo.length = 1) ∧
    (∀ (excl : List Uri → List Uri) (a b : List RepositoryChange) (d : Nat),
        REPO_DEBOUNCE < d →
        (elapse excl REPO_DEBOUNCE
            (fireChange b
              (elapse excl d
                (fireChange a (initialState false))))).publishedRepo.length = 2) ∧
    (∀ (u1 u2 : Uri) (d : Nat), ignoreGitTest u1 = false → ignoreGitTest u2 = false →
        d < FS_DEBOUNCE →
        (elapse exclId FS_DEBOUNCE
            (onFileSystemChanged u2
              (elapse exclId d
                (onFileSystemChanged u1 (initialState false))))).publishedFs.length = 1) ∧
    (∀ (u1 u2 : Uri) (d : Nat), ignoreGitTest u1 = false → ignoreGitTest u2 = false →
        FS_DEBOUNCE < d →
        (elapse exclId FS_DEBOUNCE
            (onFileSystemChanged u2
              (elapse exclId d
                (onFileSystemChanged u1 (initialState false))))).publishedFs.length = 2) := by
  refine ⟨⟨rfl, rfl⟩, ?_, ?_, ?_, ?_⟩
  · -- two records less than one window apart: one flush
    intro excl a b d hd
    set s1 := fireChange a (initialState false) with hs1
    have h1t : s1.repoTimer = some REPO_DEBOUNCE := rfl
    have h1f : s1.fsTimer = none := rfl
    have h2 : elapse excl d s1 = { s1 with repoTimer := some (REPO_DEBOUNCE - d) } :=
      elapse_repo_partial excl d REPO_DEBOUNCE s1 h1t hd h1f
    have h3t : (fireChange b (elapse excl d s1)).repoTimer = some REPO_DEBOUNCE := by
      rw [h2]
      exact rfl
    have h3f : (fireChange b (elapse excl d s1)).fsTimer = none := by
      rw [h2]
      exact rfl
    rw [elapse_repo_run excl REPO_DEBOUNCE _ h3t (by norm_num [REPO_DEBOUNCE]) h3f]
    have hpend : ({ fireChange b (elapse excl d s1) with repoTimer := none } :
        RepoState).pendingRepoChange =
        some ⟨mergeChanges (pendingChangesOf (elapse excl d s1)) b⟩ := by
      show (fireChange b (elapse excl d s1)).pendingRepoChange = _
      rw [fireChange_pendingRepo]
    rw [fireChangeCore_some _ _ hpend]
    have hpub : (elapse excl d s1).publishedRepo = [] := by
      rw [h2]
      exact rfl
    simp [hpub]
  · -- two records more than one window apart: two flushes
    intro excl a b d hd
    set s1 := fireChange a (initialState false) with hs1
    have h1t : s1.repoTimer = some REPO_DEBOUNCE := rfl
    have h1f : s1.fsTimer = none := rfl
    have hd2 : REPO_DEBOUNCE + (d - REPO_DEBOUNCE) = d := by omega
    have hfire1 : elapse excl REPO_DEBOUNCE s1 = fireChangeCore { s1 with repoTimer := none } :=
      elapse_repo_run excl REPO_DEBOUNCE s1 h1t (by norm_num [REPO_DEBOUNCE]) h1f
    have hpend1 : ({ s1 with repoTimer := none } : RepoState).pendingRepoChange =
        some ⟨mergeChanges [] a⟩ := by
      show s1.pendingRepoChange = _
      rw [hs1, fireChange_pendingRepo]
      exact rfl
    have hs2e : fireChangeCore ({ s1 with repoTimer := none } : RepoState) =
        { ({ s1 with repoTimer := none } : RepoState) with
          pendingRepoChange := none
          publishedRepo :=
            ({ s1 with repoTimer := none } : RepoState).publishedRepo ++
              [⟨mergeChanges [] a⟩] } :=
      fireChangeCore_some _ _ hpend1
    set s2 := fireChangeCore ({ s1 with repoTimer := none } : RepoState) with hs2
    have h2r : s2.repoTimer = none := by rw [hs2e]
    have h2f : s2.fsTimer = none := by rw [hs2e]; exact rfl
    have h2s : s2.suspended = false := by rw [hs2e]; exact rfl
    have h2pend : s2.pendingRepoChange = none := by rw [hs2e]
    have h2pub : s2.publishedRepo = [⟨mergeChanges [] a⟩] := by rw [hs2e]; exact rfl
    have helap : elapse excl d s1 = s2 := by
      conv_lhs => rw [← hd2, elapse_add]
      rw [hfire1]
      exact elapse_idle excl _ s2 h2r h2f
    have h3t : (fireChange b (elapse excl d s1)).repoTimer = some REPO_DEBOUNCE := by
      rw [helap, fireChange_repoTimer, h2s]
      rfl
    have h3f : (fireChange b (elapse excl d s1)).fsTimer = none := by
      rw [helap, fireChange_fsTimer]
      exact h2f
    rw [elapse_repo_run excl REPO_DEBOUNCE _ h3t (by norm_num [REPO_DEBOUNCE]) h3f]
    have hpend4 : ({ fireChange b (elapse excl d s1) with repoTimer := none } :
        RepoState).pendingRepoChange = some ⟨mergeChanges [] b⟩ := by
      show (fireChange b (elapse excl d s1)).pendingRepoChange = _
      rw [helap, fireChange_pendingRepo, pendingChangesOf_none s2 h2pend]
    rw [fireChangeCore_some _ _ hpend4]
    have hpub4 : (elapse excl d s1).publishedRepo = [⟨mergeChanges [] a⟩] := by
      rw [helap]
      exact h2pub
    simp [hpub4]
  · -- two filesystem notifications less than one window apart: one flush
    intro u1 u2 d hg1 hg2 hd
    rw [show onFileSystemChanged u1 (initialState false) =
        fireFileSystemChange u1 (initialState false) from by
      rw [onFileSystemChanged, if_neg (by simp [hg1])]]
    set s1 := fireFileSystemChange u1 (initialState false) with hs1
    have h1t : s1.fsTimer = some FS_DEBOUNCE := rfl
    have h1r : s1.repoTimer = none := rfl
    have h2 : elapse exclId d s1 = { s1 with fsTimer := some (FS_DEBOUNCE - d) } :=
      elapse_fs_partial exclId d FS_DEBOUNCE s1 h1t hd h1r
    rw [show onFileSystemChanged u2 (elapse exclId d s1) =
        fireFileSystemChange u2 (elapse exclId d s1) from by
      rw [onFileSystemChanged, if_neg (by simp [hg2])]]
    have h3t : (fireFileSystemChange u2 (elapse exclId d s1)).fsTimer = some FS_DEBOUNCE := by
      rw [h2]
      exact rfl
    have h3r : (fireFileSystemChange u2 (elapse exclId d s1)).repoTimer = none := by
      rw [h2]
      exact rfl
    rw [elapse_fs_run exclId FS_DEBOUNCE _ h3t (by norm_num [FS_DEBOUNCE]) h3r]
    have hpuris : pendingUrisOf (elapse exclId d s1) = [u1] := by
      rw [h2]
      exact rfl
    have hpend : ({ fireFileSystemChange u2 (elapse exclId d s1) with fsTimer := none } :
        RepoState).pendingFileSystemChange = some ⟨[u1, u2]⟩ := by
      show (fireFileSystemChange u2 (elapse exclId d s1)).pendingFileSystemChange = _
      rw [fireFileSystemChange_pendingFs, hpuris]
      exact rfl
    rw [fireFileSystemChangeCore_some exclId _ ⟨[u1, u2]⟩ hpend]
    have hpub : (elapse exclId d s1).publishedFs = [] := by
      rw [h2]
      exact rfl
    simp [exclId, hpub]
  · -- two filesystem notifications more than one window apart: two flushes
    intro u1 u2 d hg1 hg2 hd
    rw [show onFileSystemChanged u1 (initialState false) =
        fireFileSystemChange u1 (initialState false) from by
      rw [onFileSystemChanged, if_neg (by simp [hg1])]]
    set s1 := fireFileSystemChange u1 (initialState false) with hs1
    have h1t : s1.fsTimer = some FS_DEBOUNCE := rfl
    have h1r : s1.repoTimer = none := rfl
    have hd2 : FS_DEBOUNCE + (d - FS_DEBOUNCE) = d := by omega
    have hfire1 : elapse exclId FS_DEBOUNCE s1 =
        fireFileSystemChangeCore exclId { s1 with fsTimer := none } :=
      elapse_fs_run exclId FS_DEBOUNCE s1 h1t (by norm_num [FS_DEBOUNCE]) h1r
    have hpend1 : ({ s1 with fsTimer := none } : RepoState).pendingFileSystemChange =
        some ⟨[u1]⟩ := by
      show s1.pendingFileSystemChange = _
      rw [hs1, fireFileSystemChange_pendingFs]
      rfl
    have hs2e : fireFileSystemChangeCore exclId ({ s1 with fsTimer := none } : RepoState) =
        { ({ s1 with fsTimer := none } : RepoState) with
          pendingFileSystemChange := none
          publishedFs :=
            ({ s1 with fsTimer := none } : RepoState).publishedFs ++ [⟨[u1]⟩] } := by
      rw [fireFileSystemChangeCore_some exclId _ ⟨[u1]⟩ hpend1]
      simp [exclId]
    set s2 := fireFileSystemChangeCore exclId ({ s1 with fsTimer := none } : RepoState)
      with hs2
    have h2r : s2.repoTimer = none := by rw [hs2e]; exact rfl
    have h2f : s2.fsTimer = none := by rw [hs2e]
    have h2s : s2.suspended = false := by rw [hs2e]; exact rfl
    have h2pend : s2.pendingFileSystemChange = none := by rw [hs2e]
    have h2pub : s2.publishedFs = [⟨[u1]⟩] := by rw [hs2e]; exact rfl
    have helap : elapse exclId d s1 = s2 := by
      conv_lhs => rw [← hd2, elapse_add]
      rw [hfire1]
      exact elapse_idle exclId _ s2 h2r h2f
    rw [show onFileSystemChanged u2 (elapse exclId d s1) =
        fireFileSystemChange u2 (elapse exclId d s1) from by
      rw [onFileSystemChanged, if_neg (by simp [hg2])]]
    have h3t : (fireFileSystemChange u2 (elapse exclId d s1)).fsTimer = some FS_DEBOUNCE := by
      rw [helap, fireFileSystemChange_fsTimer, h2s]
      rfl
    have h3r : (fireFileSystemChange u2 (elapse exclId d s1)).repoTimer = none := by
      rw [helap, fireFileSystemChange_repoTimer]
      exact h2r
    rw [elapse_fs_run exclId FS_DEBOUNCE _ h3t (by norm_num [FS_DEBOUNCE]) h3r]
    have hpuris2 : pendingUrisOf (elapse exclId d s1) = [] := by
      rw [helap]
      exact pendingUrisOf_none s2 h2pend
    have hpend4 : ({ fireFileSystemChange u2 (elapse exclId d s1) with fsTimer := none } :
        RepoState).pendingFileSystemChange = some ⟨[u2]⟩ := by
      show (fireFileSystemChange u2 (elapse exclId d s1)).pendingFileSystemChange = _
      rw [fireFileSystemChange_pendingFs, hpuris2]
      exact rfl
    rw [fireFileSystemChangeCore_some exclId _ ⟨[u2]⟩ hpend4]
    have hpub4 : (elapse exclId d s1).publishedFs = [⟨[u1]⟩] := by
      rw [helap]
      exact h2pub
    simp [exclId, hpub4]

/-- C6, witness: the window theorem applied at concrete gaps of 100 and 300
units on the semantic channel and 1000 and 3000 units on the filesystem
channel. -/
theorem C6_witness :
    (100 < REPO_DEBOUNCE ∧ REPO_DEBOUNCE < 300) ∧
    (elapse exclId REPO_DEBOUNCE
        (fireChange [RepositoryChange.Tags]
          (elapse exclId 100
            (fireChange [RepositoryChange.Heads]
              (initialState false))))).publishedRepo.length = 1 ∧
    (elapse exclId REPO_DEBOUNCE
        (fireChange [RepositoryChange.Tags]
          (elapse exclId 300
            (fireChange [RepositoryChange.Heads]
              (initialState false))))).publishedRepo.length = 2 ∧
    (ignoreGitTest plainPathEx = false ∧ 1000 < FS_DEBOUNCE ∧ FS_DEBOUNCE < 3000) ∧
    (elapse exclId FS_DEBOUNCE
        (onFileSystemChanged plainPathEx
          (elapse exclId 1000
            (onFileSystemChanged plainPathEx
              (initialState false))))).publishedFs.length = 1 ∧
    (elapse exclId FS_DEBOUNCE
        (onFileSystemChanged plainPathEx
          (elapse exclId 3000
            (onFileSystemChanged plainPathEx
              (initialState false))))).publishedFs.length = 2 :=
  ⟨⟨by decide, by decide⟩,
    C6_debounce_windows.2.1 exclId [RepositoryChange.Heads] [RepositoryChange.Tags] 100
      (by decide),
    C6_debounce_windows.2.2.1 exclId [RepositoryChange.Heads] [RepositoryChange.Tags] 300
      (by decide),
    ⟨by decide, by decide, by decide⟩,
    C6_debounce_windows.2.2.2.1 plainPathEx plainPathEx 1000 (by decide) (by decide)
      (by decide),
    C6_debounce_windows.2.2.2.2 plainPathEx plainPathEx 3000 (by decide) (by decide)
      (by decide)⟩

/-- C1, counterexample: for the watched path .../.git/refs/remotes/origin/main
the classifier fires only the remotes category; heads is not among the
fired categories, refuting the claimed category set. Both cache resets do
happen, as the amended claim records. -/
theorem C1_counterexample :
    (classifyPath (some remotesPathEx)).changes = [RepositoryChange.Remotes] ∧
    RepositoryChange.Heads ∉ (classifyPath (some remotesPathEx)).changes ∧
    (classifyPath (some remotesPathEx)).resetBranch = true ∧
    (classifyPath (some remotesPathEx)).resetRemotes = true := by decide

/-- C1, amended: for every filesystem path on which no earlier exact-suffix
rule matches and whose leftmost refs-regex match is the remotes
alternative, classifying the path records exactly the category set
containing remotes alone, and invalidates both the branch cache and the
remote-list cache. -/
theorem C1_amended_refs_remotes (p : Uri) (s : RepoState)
    (h1 : dotGitConfig.isSuffixOf p = false)
    (h2 : dotGitIndexFile.isSuffixOf p = false)
    (h3 : dotGitHEADFile.isSuffixOf p = false)
    (h4 : dotGitOrigHEADFile.isSuffixOf p = false)
    (h5 : dotGitRefsStash.isSuffixOf p = false)
    (h6 : gitignoreSuffix.isSuffixOf p = false)
    (h7 : refsFirstMatch p = some RefsKind.remotes)
    (hp : s.pendingRepoChange = none) :
    (onRepositoryChanged (some p) s).pendingRepoChange =
      some ⟨[RepositoryChange.Remotes]⟩ ∧
    (onRepositoryChanged (some p) s).branchCached = false ∧
    (onRepositoryChanged (some p) s).remotesCached = false := by
  have hc : classifyPath (some p) = ⟨[RepositoryChange.Remotes], true, true⟩ := by
    simp [classifyPath, h1, h2, h3, h4, h5, h6, h7]
  obtain ⟨ha, hb, hr, _⟩ := onRepositoryChanged_classified (some p) s _ hc hp
  refine ⟨?_, ?_, ?_⟩
  · rw [ha]; decide
  · rw [hb]; simp
  · rw [hr]; simp

/-- C1, witness: the amended theorem applied to the concrete watched path
/repo/.git/refs/remotes/origin/main from a state with an empty
accumulator. -/
theorem C1_witness :
    dotGitConfig.isSuffixOf remotesPathEx = false ∧
    refsFirstMatch remotesPathEx = some RefsKind.remotes ∧
    (initialState false).pendingRepoChange = none ∧
    ((onRepositoryChanged (some remotesPathEx) (initialState false)).pendingRepoChange =
        some ⟨[RepositoryChange.Remotes]⟩ ∧
      (onRepositoryChanged (some remotesPathEx) (initialState false)).branchCached = false ∧
      (onRepositoryChanged (some remotesPathEx) (initialState false)).remotesCached = false) :=
  ⟨by decide, by decide, rfl,
    C1_amended_refs_remotes remotesPathEx (initialState false) (by decide) (by decide)
      (by decide) (by decide) (by decide) (by decide) (by decide) rfl⟩

/-- C5: the classifier follows the ordered rule table. A path ending in
.git/config fires the config and remotes categories and invalidates the
remote-list cache; a path whose leftmost refs-regex match is the heads
alternative (and on which no earlier exact-suffix rule matches) fires the
heads category and invalidates the branch cache; a null path classifies as
unknown; a path matching no rule classifies as unknown; and every
classification fires at least one category, so every watched event
produces some notification. -/
theorem C5_rule_table :
    (∀ (p : Uri) (s : RepoState), dotGitConfig.isSuffixOf p = true →
        s.pendingRepoChange = none →
        (onRepositoryChanged (some p) s).pendingRepoChange =
          some ⟨[RepositoryChange.Config, RepositoryChange.Remotes]⟩ ∧
        (onRepositoryChanged (some p) s).remotesCached = false) ∧
    (∀ (p : Uri) (s : RepoState),
        dotGitConfig.isSuffixOf p = false →
        dotGitIndexFile.isSuffixOf p = false →
        dotGitHEADFile.isSuffixOf p = false →
        dotGitOrigHEADFile.isSuffixOf p = false →
        dotGitRefsStash.isSuffixOf p = false →
        gitignoreSuffix.isSuffixOf p = false →
        refsFirstMatch p = some RefsKind.heads →
        s.pendingRepoChange = none →
        (onRepositoryChanged (some p) s).pendingRepoChange =
          some ⟨[RepositoryChange.Heads]⟩ ∧
        (onRepositoryChanged (some p) s).branchCached = false) ∧
    (∀ s : RepoState, s.pendingRepoChange = none →
        (onRepositoryChanged none s).pendingRepoChange =
          some ⟨[RepositoryChange.Unknown]⟩) ∧
    (∀ (p : Uri) (s : RepoState),
        dotGitConfig.isSuffixOf p = false →
        dotGitIndexFile.isSuffixOf p = false →
        dotGitHEADFile.isSuffixOf p = false →
        dotGitOrigHEADFile.isSuffixOf p = false →
        dotGitRefsStash.isSuffixOf p = false →
        gitignoreSuffix.isSuffixOf p = false →
        refsFirstMatch p = none →
        s.pendingRepoChange = none →
        (onRepositoryChanged (some p) s).pendingRepoChange =
          some ⟨[RepositoryChange.Unknown]⟩) ∧
    (∀ u : Option Uri, (classifyPath u).changes ≠ []) := by
  refine ⟨?_, ?_, ?_, ?_, ?_⟩
  · intro p s h1 hp
    have hc : classifyPath (some p) =
        ⟨[RepositoryChange.Config, RepositoryChange.Remotes], true, true⟩ := by
      simp [classifyPath, h1]
    obtain ⟨ha, _, hr, _⟩ := onRepositoryChanged_classified (some p) s _ hc hp
    refine ⟨?_, ?_⟩
    · rw [ha]; decide
    · rw [hr]; simp
  · intro p s h1 h2 h3 h4 h5 h6 h7 hp
    have hc : classifyPath (some p) = ⟨[RepositoryChange.Heads], true, false⟩ := by
      simp [classifyPath, h1, h2, h3, h4, h5, h6, h7]
    obtain ⟨ha, hb, _, _⟩ := onRepositoryChanged_classified (some p) s _ hc hp
    refine ⟨?_, ?_⟩
    · rw [ha]; decide
    · rw [hb]; simp
  · intro s hp
    have hc : classifyPath none = ⟨[RepositoryChange.Unknown], false, false⟩ := rfl
    obtain ⟨ha, _, _, _⟩ := onRepositoryChanged_classified none s _ hc hp
    rw [ha]; decide
  · intro p s h1 h2 h3 h4 h5 h6 h7 hp
    have hc : classifyPath (some p) = ⟨[RepositoryChange.Unknown], false, false⟩ := by
      simp [classifyPath, h1, h2, h3, h4, h5, h6, h7]
    obtain ⟨ha, _, _, _⟩ := onRepositoryChanged_classified (some p) s _ hc hp
    rw [ha]; decide
  · intro u
    cases u with
    | none => decide
    | some p =>
      simp only [classifyPath]
      split
      · decide
      · split
        · decide
        · split
          · decide
          · split
            · decide
            · split
              · decide
              · split <;> decide

/-- C5, witness: the rule-table theorem applied at the concrete watched
paths /repo/.git/config, /repo/.git/refs/heads/main, the null path, and
the unmatched path /repo/src/app.ts, all from a state with an empty
accumulator. -/
theorem C5_witness :
    dotGitConfig.isSuffixOf configPathEx = true ∧
    ((onRepositoryChanged (some configPathEx) (initialState false)).pendingRepoChange =
        some ⟨[RepositoryChange.Config, RepositoryChange.Remotes]⟩ ∧
      (onRepositoryChanged (some configPathEx) (initialState false)).remotesCached = false) ∧
    refsFirstMatch headsPathEx = some RefsKind.heads ∧
    ((onRepositoryChanged (some headsPathEx) (initialState false)).pendingRepoChange =
        some ⟨[RepositoryChange.Heads]⟩ ∧
      (onRepositoryChanged (some headsPathEx) (initialState false)).branchCached = false) ∧
    (onRepositoryChanged none (initialState false)).pendingRepoChange =
      some ⟨[RepositoryChange.Unknown]⟩ ∧
    refsFirstMatch plainPathEx = none ∧
    (onRepositoryChanged (some plainPathEx) (initialState false)).pendingRepoChange =
      some ⟨[RepositoryChange.Unknown]⟩ ∧
    (classifyPath (some plainPathEx)).changes ≠ [] :=
  ⟨by decide,
    C5_rule_table.1 configPathEx (initialState false) (by decide) rfl,
    by decide,
    C5_rule_table.2.1 headsPathEx (initialState false) (by decide) (by decide) (by decide)
      (by decide) (by decide) (by decide) (by decide) rfl,
    C5_rule_table.2.2.1 (initialState false) rfl,
    by decide,
    C5_rule_table.2.2.2.1 plainPathEx (initialState false) (by decide) (by decide) (by decide)
      (by decide) (by decide) (by decide) (by decide) rfl,
    C5_rule_table.2.2.2.2 (some plainPathEx)⟩

/-- C7: flushing with an empty pending accumulator is a no-op for both
flush routines: no event is published and the state is returned
unchanged. -/
theorem C7_empty_flush_noop (excl : List Uri → List Uri) (s : RepoState) :
    (s.pendingRepoChange = none → fireChangeCore s = s) ∧
    (s.pendingFileSystemChange = none → fireFileSystemChangeCore excl s = s) :=
  ⟨fireChangeCore_none s, fireFileSystemChangeCore_none excl s⟩

/-- C7, witness: the no-op theorem applied to the initial state, whose
accumulators are both empty. -/
theorem C7_witness :
    (initialState false).pendingRepoChange = none ∧
    fireChangeCore (initialState false) = initialState false ∧
    (initialState false).pendingFileSystemChange = none ∧
    fireFileSystemChangeCore exclId (initialState false) = initialState false :=
  ⟨rfl, (C7_empty_flush_noop exclId (initialState false)).1 rfl, rfl,
    (C7_empty_flush_noop exclId (initialState false)).2 rfl⟩

/-- C8: when the external delegate of a mutating operation rejects, the
failure is caught at the delegation boundary: exactly the caught error is
logged, exactly one generic operation-named message is surfaced (a
constant, carrying no detail of the error), the repository state is left
unchanged (in particular no change event is fired), and the operation
still returns an ordinary result. -/
theorem C8_delegation_failure :
    (∀ (ex : GitError) (s : RepoState),
        fetchCore (Except.error ex) s = ⟨s, [ex], ["Unable to fetch repository"]⟩) ∧
    (∀ (ex : GitError) (s : RepoState) (ht : Except GitError Bool) (fp : Bool)
        (cr fr : Except GitError Unit),
        pullCoreBody ht fp cr fr = Except.error ex →
        pullCore ht fp cr fr s = ⟨s, [ex], ["Unable to pull repository"]⟩) ∧
    (∀ (ex : GitError) (s : RepoState) (r : PushReference) (pub : Option String)
        (f : Bool) (env : PushEnv),
        pushCoreBody r pub f env = Except.error ex →
        pushCore r pub f env s = ⟨s, [ex], ["Unable to push repository"]⟩) ∧
    (∀ (ex : GitError) (s : RepoState),
        switchCore (Except.error ex) s = ⟨s, [ex], ["Unable to switch to reference"]⟩) := by
  refine ⟨fun ex s => rfl, ?_, ?_, fun ex s => rfl⟩
  · intro ex s ht fp cr fr h
    simp [pullCore, h]
  · intro ex s r pub f env h
    simp [pushCore, h]

/-- C8, witness: the failure theorem applied to a rejecting pull delegate
and to a push whose host-command delegate rejects. -/
theorem C8_witness :
    pullCoreBody (Except.error (GitError.err 3)) false (Except.ok ()) (Except.ok ()) =
      Except.error (GitError.err 3) ∧
    pullCore (Except.error (GitError.err 3)) false (Except.ok ()) (Except.ok ())
        (initialState false) =
      ⟨initialState false, [GitError.err 3], ["Unable to pull repository"]⟩ ∧
    pushCoreBody PushReference.noRef none false
        ⟨Except.ok none, Except.ok none, Except.ok none, Except.ok (),
          Except.error (GitError.err 4)⟩ =
      Except.error (GitError.err 4) ∧
    pushCore PushReference.noRef none false
        ⟨Except.ok none, Except.ok none, Except.ok none, Except.ok (),
          Except.error (GitError.err 4)⟩ (initialState false) =
      ⟨initialState false, [GitError.err 4], ["Unable to push repository"]⟩ ∧
    fetchCore (Except.error (GitError.err 5)) (initialState false) =
      ⟨initialState false, [GitError.err 5], ["Unable to fetch repository"]⟩ :=
  ⟨rfl,
    C8_delegation_failure.2.1 (GitError.err 3) (initialState false)
      (Except.error (GitError.err 3)) false (Except.ok ()) (Except.ok ()) rfl,
    rfl,
    C8_delegation_failure.2.2.1 (GitError.err 4) (initialState false) PushReference.noRef
      none false
      ⟨Except.ok none, Except.ok none, Except.ok none, Except.ok (),
        Except.error (GitError.err 4)⟩ rfl,
    C8_delegation_failure.1 (GitError.err 5) (initialState false)⟩

/-- C9: two consecutive gated calls with the same key, the second arriving
while the first is still in flight, start the external delegate exactly
once, and the second call receives the in-flight result of the first. -/
theorem C9_gate_single_execution {K V : Type} [DecidableEq K] (delegate : Nat → V) (k : K) :
    (gateCall delegate ⟨[]⟩ 0 k).2.2 = 1 ∧
    (gateCall delegate (gateCall delegate ⟨[]⟩ 0 k).2.1
        (gateCall delegate ⟨[]⟩ 0 k).2.2 k).2.2 = 1 ∧
    (gateCall delegate (gateCall delegate ⟨[]⟩ 0 k).2.1
        (gateCall delegate ⟨[]⟩ 0 k).2.2 k).1 =
      (gateCall delegate ⟨[]⟩ 0 k).1 := by
  refine ⟨rfl, ?_, ?_⟩ <;> simp [gateCall, gateLookup]

/-- C9, witness: the gate theorem applied to the key of a concrete fetch
operation. -/
theorem C9_witness :
    (gateCall (fun n => n) (⟨[]⟩ : GateState String Nat) 0 "fetch").2.2 = 1 ∧
    (gateCall (fun n => n)
        (gateCall (fun n => n) (⟨[]⟩ : GateState String Nat) 0 "fetch").2.1
        (gateCall (fun n => n) (⟨[]⟩ : GateState String Nat) 0 "fetch").2.2 "fetch").2.2 = 1 ∧
    (gateCall (fun n => n)
        (gateCall (fun n => n) (⟨[]⟩ : GateState String Nat) 0 "fetch").2.1
        (gateCall (fun n => n) (⟨[]⟩ : GateState String Nat) 0 "fetch").2.2 "fetch").1 =
      (gateCall (fun n => n) (⟨[]⟩ : GateState String Nat) 0 "fetch").1 :=
  C9_gate_single_execution (fun n => n) "fetch"

end Repo
